import Mathlib

/-!
Verification of the face-recognition attendance pipeline
(image encoder, encoding provider, face identification).

The Python source is shallowly embedded: pure fragments become Lean
functions, the mutable disk state (directory tree, ledger file, store
file, cropped-face archive) becomes explicit state passing, and
exceptions become Option/Except values.  Embedding vectors are lists of
rationals; the external face-distance primitive is a function parameter,
as the spec treats the encoding primitive as an opaque collaborator.
-/

/-- An embedding vector produced by the encoding primitive. -/
abbrev Enc := List ℚ

/-- Model of an image file on disk: whether `load_image_file` succeeds,
and the list of face embeddings the encoding primitive detects in it
(in detection order). -/
structure ImageFile where
  decodeOk : Bool
  faces : List Enc
deriving DecidableEq

/-- A student folder: filenames with their image contents, in listing order. -/
abbrev StudentDir := List (String × ImageFile)

/-- A lecture folder: student folder names with their contents. -/
abbrev Lecture := List (String × StudentDir)

/-- The parent directory tree: lecture folder names with their contents. -/
abbrev DirTree := List (String × Lecture)

/-- Model of `os.path.join`. -/
def pathJoin (a b : String) : String := a ++ "/" ++ b

/-! ## ProcessedLedger (`_load_processed_images` / `_save_processed_image`)

The ledger file `processed_images.json` is modelled as
`Option (List String)`: `none` is a missing file, `some l` a file holding
the JSON list `l`.  The Python code loads it into a `set`; we keep the
list and use list membership, which models set membership faithfully
(the persisted iteration order of a Python set is unspecified, so the
model fixes a deterministic order: append when absent). -/

/-- `_load_processed_images`: a missing file yields the empty set. -/
def loadProcessed (file : Option (List String)) : List String := file.getD []

/-- `_save_processed_image`: load the current set, add the path, write it back. -/
def saveProcessed (p : String) (file : Option (List String)) : Option (List String) :=
  let cur := loadProcessed file
  some (if p ∈ cur then cur else cur ++ [p])

/-! ## EncodingStore persistence (`_save_encodings` / `_load_data_from_file`)

A Python dict is an association list with distinct keys, in insertion
order; `pickle.dump` persists its entry sequence and `pickle.load`
rebuilds the dict by inserting the pairs in order.  `dictInsert` is
Python dict assignment: replace in place when the key exists, else
append. -/

/-- Python dict assignment `d[k] = v`. -/
def dictInsert (d : List (String × α)) (k : String) (v : α) : List (String × α) :=
  match d with
  | [] => [(k, v)]
  | (k0, v0) :: rest => if k0 = k then (k, v) :: rest else (k0, v0) :: dictInsert rest k v

/-- Unpickling a dict: rebuild from the persisted entry sequence. -/
def pickleDictOfEntries (entries : List (String × List Enc)) : List (String × List Enc) :=
  entries.foldl (fun d kv => dictInsert d kv.1 kv.2) []

/-- `_save_encodings`: pickle the whole mapping; the file holds its entry
sequence in insertion order. -/
def saveEncodings (studentData : List (String × List Enc)) : List (String × List Enc) :=
  studentData

/-- `_load_data_from_file` on a well-formed pickle file: unpickle the mapping. -/
def loadDataFromFile (fileEntries : List (String × List Enc)) : List (String × List Enc) :=
  pickleDictOfEntries fileEntries

/-- The validator of `EncodingProvider._is_valid_encoding_file` on a
deserialized mapping: keys are strings and values are lists of
embeddings by typing; every value must be non-empty. -/
def validStoreEntries (s : List (String × List Enc)) : Bool :=
  s.all (fun kv => !kv.2.isEmpty)

/-! ## IdentityMatcher (`FaceIdentification`) -/

/-- `_extract_face_encodings_and_names`: for each store entry the key is
appended once to the names and the whole value list is appended to the
encodings (`extend`).  Returns (encodings, names) as the source does. -/
def extractFaceEncodingsAndNames (store : List (String × List Enc)) :
    List Enc × List String :=
  store.foldl (fun acc kv => (acc.1 ++ kv.2, acc.2 ++ [kv.1])) ([], [])

/-- First index of the minimum of a distance list, as `np.argmin`
computes it: scan left to right, replace only on strictly smaller. -/
def argminAux : List ℚ → Nat × ℚ → Nat → Nat × ℚ
  | [], best, _ => best
  | x :: xs, best, i => if x < best.2 then argminAux xs (i, x) (i + 1) else argminAux xs best (i + 1)

/-- `np.argmin` paired with the minimum value; `(0, 0)` on the empty
list (unreached: the source checks emptiness first). -/
def argminPair : List ℚ → Nat × ℚ
  | [] => (0, 0)
  | x :: xs => argminAux xs (0, x) 1

/-- Python `s.split('_')[0]`: the prefix of `s` before the first underscore. -/
def nameWithoutId (s : String) : String :=
  ⟨s.data.takeWhile (fun c => c ≠ '_')⟩

/-- The outcome of `_get_face_name`, keeping the three-way distinction
the code produces, plus the index error it can raise. -/
inductive MatchResult where
  /-- the `("Unknown", 0.0)` return value -/
  | unknown : MatchResult
  /-- the `(None, None)` below-threshold return value, dropped by `_identify_faces` -/
  | noDecision : MatchResult
  /-- a confident match: displayed name and confidence score -/
  | matched (name : String) (confidence : ℚ) : MatchResult
  /-- `known_face_names[best_match_index]` raised `IndexError` -/
  | indexError : MatchResult
deriving DecidableEq

/-- `_get_face_name`.  `dist` is the external
`face_recognition.face_distance` primitive (per query embedding), kept
as a parameter; `MIN_CONFIDENCE_THRESHOLD = 0.60`. -/
def getFaceName (dist : Enc → Enc → ℚ) (names : List String) (encodings : List Enc)
    (q : Enc) : MatchResult :=
  if encodings.length = 0 then .unknown
  else
    let ds := encodings.map (fun e => dist q e)
    if ds.length = 0 then .unknown
    else
      let best := argminPair ds
      let conf := 1 - best.2
      if conf < 3 / 5 then .noDecision
      else if best.1 < encodings.length then
        match names.get? best.1 with
        | some nm => .matched (nameWithoutId nm) conf
        | none => .indexError
      else .unknown

/-! ## EncodingProvider construction and `get_encoding_data` -/

/-- The keyword parameters `ImageEncoder.__init__` accepts. -/
def imageEncoderInitKeywords : List String :=
  ["parent_dir", "output_file", "processed_file", "cropped_faces_dir", "image_types"]

/-- The keyword arguments `EncodingProvider.__init__` passes to `ImageEncoder`. -/
def encodingProviderEncoderKwargs : List String :=
  ["known_faces_dir", "mirror_video"]

/-- `EncodingProvider.__init__`: the field assignments always succeed,
then `ImageEncoder(known_faces_dir=..., mirror_video=...)` is
constructed; Python raises `TypeError` when a keyword argument is not a
parameter of the callee. -/
def encodingProviderInit (_facialEncodingsFile _knownFacesDir : String)
    (_validExtensions : Option (List String)) (_mirrorVideo : Bool) : Except String Unit :=
  if encodingProviderEncoderKwargs.all (fun k => k ∈ imageEncoderInitKeywords) then
    Except.ok ()
  else Except.error "TypeError"

/-- The attribute (method) names defined on the `ImageEncoder` class. -/
def imageEncoderMethods : List String :=
  ["run", "_initialize_pickle_file", "_initialize_cropped_faces_dir",
   "_process_and_encode_images", "_get_lecture_numbers", "_process_students_in_lecture",
   "_encode_student_images", "_is_valid_image_type", "_encode_image", "_crop_face",
   "_load_processed_images", "_save_processed_image", "_save_cropped_image",
   "_remove_image", "_save_encodings"]

/-- The call `self.encoder.process_images()`: Python raises
`AttributeError` when the attribute is not defined on the class. -/
def encoderProcessImagesCall (freshStorePath : String) : Except String String :=
  if "process_images" ∈ imageEncoderMethods then Except.ok freshStorePath
  else Except.error "AttributeError"

/-- `EncodingProvider.get_encoding_data`, both arguments provided
(non-empty), under an unchanged disk so that the repeated validity
checks are the booleans `storeValid` / `dirValid`.  The surrounding
`try`/`except` turns any raised error into a `None` return. -/
def getEncodingData (storeValid dirValid : Bool) (storePath freshStorePath : String) :
    Option String :=
  if !storeValid && !dirValid then none
  else if storeValid && dirValid then some storePath
  else if storeValid && !dirValid then some storePath
  else if dirValid && !storeValid then
    match encoderProcessImagesCall freshStorePath with
    | .ok p => some p
    | .error _ => none
  else none

/-! ## ImageEncodingPipeline (`ImageEncoder`)

The disk state is a `Disk`: the directory tree under `parent_dir`, the
ledger file, the store file (`none` = missing), and the cropped-face
archive.  A pipeline run walks the tree exactly as
`_process_and_encode_images` does; `attempts` counts the invocations of
`_encode_image` (images the run actually processes). -/

/-- The default `image_types` allow-list of `ImageEncoder.__init__`. -/
def defaultImageTypes : List String := ["jpeg", "jpg", "png"]

/-- `_is_valid_image_type`: the lowercased filename ends with one of the
configured extensions. -/
def isValidImageType (types : List String) (fname : String) : Bool :=
  types.any (fun ext => ext.data.isSuffixOf (fname.data.map Char.toLower))

/-- Python `os.path.splitext(s)[0]`: drop the extension after the last dot. -/
def stripExt (s : String) : String :=
  if s.data.contains '.' then ⟨((s.data.reverse.dropWhile (fun c => c ≠ '.')).tail).reverse⟩
  else s

/-- `_save_cropped_image`'s archive path for a source image filename,
under the default `cropped_faces` directory. -/
def croppedSavePath (fname : String) : String :=
  pathJoin "cropped_faces" (stripExt fname ++ "_cropped.jpg")

/-- `_encode_image`: `None` on decode failure, on zero detected faces,
and on more than one detected face (the strict policy); otherwise the
single face's embedding. -/
def encodeImage (img : ImageFile) : Option Enc :=
  if img.decodeOk = false then none
  else
    match img.faces with
    | [] => none
    | [e] => some e
    | _ :: _ :: _ => none

/-- The evolving state of `_encode_student_images`: the per-student
encodings list, the live ledger file, the cropped-face archive entries
written so far, the files still on disk in this folder (a successful
encode deletes its source image), and the `_encode_image` invocation
count. -/
structure StudState where
  encodings : List Enc
  ledger : Option (List String)
  cropped : List String
  remaining : List (String × ImageFile)
  attempts : Nat
deriving DecidableEq

/-- One iteration of the loop in `_encode_student_images` over a
directory entry.  `processed` is the snapshot loaded once at function
entry.  On success the order of effects mirrors the source: append the
encoding, record the path in the ledger, archive the crop, delete the
source image (the file is not kept in `remaining`). -/
def encodeStudentStep (types : List String) (studentPath : String)
    (processed : List String) (st : StudState) (file : String × ImageFile) : StudState :=
  if isValidImageType types file.1 = false then
    { st with remaining := st.remaining ++ [file] }
  else
    let p := pathJoin studentPath file.1
    if p ∈ processed then { st with remaining := st.remaining ++ [file] }
    else
      match encodeImage file.2 with
      | none =>
          { st with remaining := st.remaining ++ [file], attempts := st.attempts + 1 }
      | some e =>
          { st with
            encodings := st.encodings ++ [e],
            ledger := saveProcessed p st.ledger,
            cropped := st.cropped ++ [croppedSavePath file.1],
            attempts := st.attempts + 1 }

/-- `_encode_student_images`: load the processed-set snapshot once, then
loop over the folder listing. -/
def encodeStudentImages (types : List String) (studentPath : String)
    (files : List (String × ImageFile)) (ledger : Option (List String)) : StudState :=
  let processed := loadProcessed ledger
  files.foldl (encodeStudentStep types studentPath processed) ⟨[], ledger, [], [], 0⟩

/-- The accumulator threaded through the directory walk: the in-memory
`student_data` dict, the live ledger file, the cropped archive entries,
and the total `_encode_image` invocation count. -/
structure WalkAcc where
  studentData : List (String × List Enc)
  ledger : Option (List String)
  cropped : List String
  attempts : Nat
deriving DecidableEq

/-- The body of `_process_students_in_lecture` for one student folder:
an empty folder is skipped; otherwise its images are encoded and
`student_data[student_id] = encodings` is assigned only when some
encoding was produced.  Returns the updated accumulator and the folder's
contents after deletions. -/
def processStudent (types : List String) (lecturePath : String) (acc : WalkAcc)
    (stu : String × StudentDir) : WalkAcc × (String × StudentDir) :=
  if stu.2.isEmpty then (acc, stu)
  else
    let spath := pathJoin lecturePath stu.1
    let st := encodeStudentImages types spath stu.2 acc.ledger
    let sd := if st.encodings.isEmpty then acc.studentData
              else dictInsert acc.studentData stu.1 st.encodings
    (⟨sd, st.ledger, acc.cropped ++ st.cropped, acc.attempts + st.attempts⟩,
     (stu.1, st.remaining))

/-- The loop of `_process_students_in_lecture` over the student folders,
rebuilding the lecture directory as the walk deletes images. -/
def processStudentsList (types : List String) (lecturePath : String) (acc : WalkAcc) :
    Lecture → WalkAcc × Lecture
  | [] => (acc, [])
  | s :: rest =>
    let r1 := processStudent types lecturePath acc s
    let r2 := processStudentsList types lecturePath r1.1 rest
    (r2.1, r1.2 :: r2.2)

/-- The loop of `_process_and_encode_images` over the lecture folders:
a lecture with no student folders is skipped. -/
def processLecturesList (types : List String) (parentDir : String) (acc : WalkAcc) :
    DirTree → WalkAcc × DirTree
  | [] => (acc, [])
  | (lname, students) :: rest =>
    let lpath := pathJoin parentDir lname
    let r1 := if students.isEmpty then (acc, students)
              else processStudentsList types lpath acc students
    let r2 := processLecturesList types parentDir r1.1 rest
    (r2.1, (lname, r1.2) :: r2.2)

/-- The on-disk state a pipeline run reads and writes. -/
structure Disk where
  tree : DirTree
  ledger : Option (List String)
  store : Option (List (String × List Enc))
  cropped : List String
deriving DecidableEq

/-- `_process_and_encode_images`: an empty parent directory exits
without processing; `student_data` starts empty. -/
def processAndEncodeImages (types : List String) (parentDir : String) (d : Disk) :
    WalkAcc × DirTree :=
  if d.tree.isEmpty then (⟨[], d.ledger, [], 0⟩, d.tree)
  else processLecturesList types parentDir ⟨[], d.ledger, [], 0⟩ d.tree

/-- One full `ImageEncoder` run on a freshly constructed encoder:
`__init__` creates an empty store file when missing (which `run`'s final
`_save_encodings` overwrites anyway), then `run` walks the tree and
saves the accumulated `student_data` over the store file.  Returns the
new disk and the number of `_encode_image` invocations. -/
def runPipeline (types : List String) (parentDir : String) (d : Disk) : Disk × Nat :=
  let r := processAndEncodeImages types parentDir d
  (⟨r.2, r.1.ledger, some r.1.studentData, d.cropped ++ r.1.cropped⟩, r.1.attempts)

/-- All files of a tree with their full paths and bare filenames. -/
def studentFilesList (studentPath : String) (files : StudentDir) :
    List (String × String × ImageFile) :=
  files.map (fun f => (pathJoin studentPath f.1, f.1, f.2))

/-- All files of a lecture with their full paths and bare filenames. -/
def lectureFilesList (lecturePath : String) (students : Lecture) :
    List (String × String × ImageFile) :=
  students.foldr (fun s r => studentFilesList (pathJoin lecturePath s.1) s.2 ++ r) []

/-- All files of the parent directory tree with their full paths and
bare filenames. -/
def treeFilesList (parentDir : String) (tree : DirTree) :
    List (String × String × ImageFile) :=
  tree.foldr (fun l r => lectureFilesList (pathJoin parentDir l.1) l.2 ++ r) []

/-- Every image of allowed type still on disk is recorded in the ledger:
the state a fully successful pipeline run leaves behind. -/
def GoodDisk (types : List String) (parentDir : String) (d : Disk) : Prop :=
  ∀ x ∈ treeFilesList parentDir d.tree,
    isValidImageType types x.2.1 = true → x.1 ∈ loadProcessed d.ledger

/-- Every image of allowed type on disk is either already ledgered or
will encode successfully: the hypothesis under which a first run
succeeds on everything it attempts. -/
def AllEncodable (types : List String) (parentDir : String) (d : Disk) : Prop :=
  ∀ x ∈ treeFilesList parentDir d.tree,
    isValidImageType types x.2.1 = true →
      x.1 ∈ loadProcessed d.ledger ∨ (encodeImage x.2.2).isSome = true

lemma getFaceName_singleton (dist : Enc → Enc → ℚ) (n : String) (e q : Enc) :
    getFaceName dist [n] [e] q =
      if 1 - dist q e < 3 / 5 then .noDecision
      else .matched (nameWithoutId n) (1 - dist q e) := by
  simp [getFaceName, argminPair, argminAux]

lemma mem_loadProcessed_saveProcessed_self (p : String) (f : Option (List String)) :
    p ∈ loadProcessed (saveProcessed p f) := by
  unfold saveProcessed loadProcessed
  simp only [Option.getD_some]
  split
  · assumption
  · simp

lemma mem_loadProcessed_saveProcessed (a q : String) (f : Option (List String))
    (h : a ∈ loadProcessed f) : a ∈ loadProcessed (saveProcessed q f) := by
  unfold saveProcessed loadProcessed
  unfold loadProcessed at h
  simp only [Option.getD_some]
  split
  · exact h
  · simp [h]

lemma mem_loadProcessed_foldl (p : String) (ops : List String) :
    ∀ f, p ∈ loadProcessed f →
      p ∈ loadProcessed (ops.foldl (fun g q => saveProcessed q g) f) := by
  induction ops with
  | nil => intro f h; simpa using h
  | cons q rest ih =>
    intro f h
    exact ih _ (mem_loadProcessed_saveProcessed p q f h)

lemma dictInsert_of_not_mem {α : Type} (d : List (String × α)) (k : String) (v : α)
    (h : k ∉ d.map Prod.fst) : dictInsert d k v = d ++ [(k, v)] := by
  induction d with
  | nil => rfl
  | cons kv rest ih =>
    simp only [List.map_cons, List.mem_cons] at h
    push_neg at h
    simp [dictInsert, Ne.symm h.1, ih h.2]

lemma foldl_dictInsert (S : List (String × List Enc)) :
    ∀ acc : List (String × List Enc), (S.map Prod.fst).Nodup →
      (∀ k ∈ S.map Prod.fst, k ∉ acc.map Prod.fst) →
      S.foldl (fun d kv => dictInsert d kv.1 kv.2) acc = acc ++ S := by
  induction S with
  | nil => intro acc _ _; simp
  | cons kv rest ih =>
    intro acc hnd hdisj
    simp only [List.map_cons, List.nodup_cons] at hnd
    have h1 : kv.1 ∉ acc.map Prod.fst := hdisj kv.1 (by simp)
    have step : dictInsert acc kv.1 kv.2 = acc ++ [(kv.1, kv.2)] :=
      dictInsert_of_not_mem acc kv.1 kv.2 h1
    have hdisj2 : ∀ k ∈ rest.map Prod.fst, k ∉ (acc ++ [(kv.1, kv.2)]).map Prod.fst := by
      intro k hk
      simp only [List.map_append, List.mem_append, List.map_cons, List.map_nil,
        List.mem_singleton]
      push_neg
      exact ⟨hdisj k (by simp [hk]), by rintro rfl; exact hnd.1 hk⟩
    calc ((kv :: rest).foldl (fun d x => dictInsert d x.1 x.2) acc)
        = rest.foldl (fun d x => dictInsert d x.1 x.2) (acc ++ [(kv.1, kv.2)]) := by
          simp [step]
      _ = (acc ++ [(kv.1, kv.2)]) ++ rest := ih _ hnd.2 hdisj2
      _ = acc ++ (kv :: rest) := by simp

lemma encodeImage_eq_none (img : ImageFile) (hd : img.decodeOk = true)
    (hf : img.faces.length ≠ 1) : encodeImage img = none := by
  obtain ⟨dOk, faces⟩ := img
  simp only at hd hf
  subst hd
  unfold encodeImage
  rcases faces with _ | ⟨e, _ | ⟨e2, rest⟩⟩
  · simp
  · simp at hf
  · simp

lemma encodeStudentStep_rejected (types : List String) (spath : String)
    (processed : List String) (st : StudState) (name : String) (img : ImageFile)
    (hv : isValidImageType types name = true)
    (hp : pathJoin spath name ∉ processed)
    (henc : encodeImage img = none) :
    encodeStudentStep types spath processed st (name, img) =
      { st with remaining := st.remaining ++ [(name, img)],
                attempts := st.attempts + 1 } := by
  unfold encodeStudentStep
  rw [hv]
  simp [hp, henc]

lemma encodeStudentStep_core_congr (types : List String) (spath : String)
    (processed : List String) (f : String × ImageFile) (st1 st2 : StudState)
    (h1 : st1.encodings = st2.encodings) (h2 : st1.ledger = st2.ledger)
    (h3 : st1.cropped = st2.cropped) :
    (encodeStudentStep types spath processed st1 f).encodings =
      (encodeStudentStep types spath processed st2 f).encodings ∧
    (encodeStudentStep types spath processed st1 f).ledger =
      (encodeStudentStep types spath processed st2 f).ledger ∧
    (encodeStudentStep types spath processed st1 f).cropped =
      (encodeStudentStep types spath processed st2 f).cropped := by
  by_cases hv : isValidImageType types f.1 = false
  · simp [encodeStudentStep, hv, h1, h2, h3]
  · by_cases hp : pathJoin spath f.1 ∈ processed
    · simp [encodeStudentStep, hv, hp, h1, h2, h3]
    · cases henc : encodeImage f.2 with
      | none => simp [encodeStudentStep, hv, hp, henc, h1, h2, h3]
      | some e => simp [encodeStudentStep, hv, hp, henc, h1, h2, h3]

lemma foldl_step_core_congr (types : List String) (spath : String)
    (processed : List String) :
    ∀ (files : List (String × ImageFile)) (st1 st2 : StudState),
      st1.encodings = st2.encodings → st1.ledger = st2.ledger →
      st1.cropped = st2.cropped →
      (files.foldl (encodeStudentStep types spath processed) st1).encodings =
        (files.foldl (encodeStudentStep types spath processed) st2).encodings ∧
      (files.foldl (encodeStudentStep types spath processed) st1).ledger =
        (files.foldl (encodeStudentStep types spath processed) st2).ledger ∧
      (files.foldl (encodeStudentStep types spath processed) st1).cropped =
        (files.foldl (encodeStudentStep types spath processed) st2).cropped := by
  intro files
  induction files with
  | nil => intro st1 st2 h1 h2 h3; exact ⟨h1, h2, h3⟩
  | cons f rest ih =>
    intro st1 st2 h1 h2 h3
    have hstep := encodeStudentStep_core_congr types spath processed f st1 st2 h1 h2 h3
    exact ih _ _ hstep.1 hstep.2.1 hstep.2.2

lemma foldl_step_skip (types : List String) (spath : String) (processed : List String) :
    ∀ (files : List (String × ImageFile)) (st : StudState),
      (∀ f ∈ files, isValidImageType types f.1 = true → pathJoin spath f.1 ∈ processed) →
      files.foldl (encodeStudentStep types spath processed) st =
        { st with remaining := st.remaining ++ files } := by
  intro files
  induction files with
  | nil => intro st _; simp
  | cons f rest ih =>
    intro st h
    have hstep : encodeStudentStep types spath processed st f =
        { st with remaining := st.remaining ++ [f] } := by
      by_cases hv : isValidImageType types f.1 = false
      · simp [encodeStudentStep, hv]
      · have hv2 : isValidImageType types f.1 = true := by
          cases hvv : isValidImageType types f.1
          · exact absurd hvv hv
          · rfl
        have hp := h f (by simp) hv2
        simp [encodeStudentStep, hv, hp]
    rw [List.foldl_cons, hstep, ih _ (fun g hg => h g (by simp [hg]))]
    simp

lemma foldl_step_ledger_mono (types : List String) (spath : String)
    (processed : List String) :
    ∀ (files : List (String × ImageFile)) (st : StudState) (a : String),
      a ∈ loadProcessed st.ledger →
      a ∈ loadProcessed ((files.foldl (encodeStudentStep types spath processed) st).ledger) := by
  intro files
  induction files with
  | nil => intro st a h; simpa using h
  | cons f rest ih =>
    intro st a h
    rw [List.foldl_cons]
    apply ih
    by_cases hv : isValidImageType types f.1 = false
    · simpa [encodeStudentStep, hv] using h
    · by_cases hp : pathJoin spath f.1 ∈ processed
      · simpa [encodeStudentStep, hv, hp] using h
      · cases henc : encodeImage f.2 with
        | none => simpa [encodeStudentStep, hv, hp, henc] using h
        | some e =>
          simp only [encodeStudentStep, hv, if_false, hp, if_neg, henc]
          simp [hp]
          exact mem_loadProcessed_saveProcessed a _ st.ledger h

lemma isValidImageType_true_of_not_false (types : List String) (n : String)
    (h : ¬ isValidImageType types n = false) : isValidImageType types n = true := by
  cases hv : isValidImageType types n
  · exact absurd hv h
  · rfl

lemma foldl_step_good (types : List String) (spath : String) (processed : List String) :
    ∀ (files : List (String × ImageFile)) (st : StudState),
      (∀ f ∈ files, isValidImageType types f.1 = true →
          pathJoin spath f.1 ∈ processed ∨ (encodeImage f.2).isSome = true) →
      (∀ a ∈ processed, a ∈ loadProcessed st.ledger) →
      (∀ f ∈ st.remaining, isValidImageType types f.1 = true →
          pathJoin spath f.1 ∈ loadProcessed st.ledger) →
      ∀ f ∈ (files.foldl (encodeStudentStep types spath processed) st).remaining,
        isValidImageType types f.1 = true →
          pathJoin spath f.1 ∈
            loadProcessed ((files.foldl (encodeStudentStep types spath processed) st).ledger) := by
  intro files
  induction files with
  | nil => intro st _ _ hrem; simpa using hrem
  | cons f rest ih =>
    intro st hfiles hproc hrem
    rw [List.foldl_cons]
    by_cases hv : isValidImageType types f.1 = false
    · have hstep : encodeStudentStep types spath processed st f =
          { st with remaining := st.remaining ++ [f] } := by
        simp [encodeStudentStep, hv]
      rw [hstep]
      refine ih _ (fun g hg => hfiles g (by simp [hg])) hproc ?_
      intro g hg hgv
      simp only [List.mem_append, List.mem_singleton] at hg
      rcases hg with hg | rfl
      · exact hrem g hg hgv
      · rw [hgv] at hv; simp at hv
    · have hv2 := isValidImageType_true_of_not_false types f.1 hv
      by_cases hp : pathJoin spath f.1 ∈ processed
      · have hstep : encodeStudentStep types spath processed st f =
            { st with remaining := st.remaining ++ [f] } := by
          simp [encodeStudentStep, hv2, hp]
        rw [hstep]
        refine ih _ (fun g hg => hfiles g (by simp [hg])) hproc ?_
        intro g hg hgv
        simp only [List.mem_append, List.mem_singleton] at hg
        rcases hg with hg | rfl
        · exact hrem g hg hgv
        · exact hproc _ hp
      · have hsome : (encodeImage f.2).isSome = true := by
          rcases hfiles f (by simp) hv2 with h | h
          · exact absurd h hp
          · exact h
        cases henc : encodeImage f.2 with
        | none => rw [henc] at hsome; simp at hsome
        | some e =>
          have hstep : encodeStudentStep types spath processed st f =
              { st with encodings := st.encodings ++ [e],
                        ledger := saveProcessed (pathJoin spath f.1) st.ledger,
                        cropped := st.cropped ++ [croppedSavePath f.1],
                        attempts := st.attempts + 1 } := by
            simp [encodeStudentStep, hv2, hp, henc]
          rw [hstep]
          refine ih _ (fun g hg => hfiles g (by simp [hg])) ?_ ?_
          · intro a ha
            exact mem_loadProcessed_saveProcessed a _ st.ledger (hproc a ha)
          · intro g hg hgv
            exact mem_loadProcessed_saveProcessed _ _ st.ledger (hrem g hg hgv)

lemma encodeStudentImages_skip (types : List String) (spath : String)
    (files : List (String × ImageFile)) (ledger : Option (List String))
    (h : ∀ f ∈ files, isValidImageType types f.1 = true →
        pathJoin spath f.1 ∈ loadProcessed ledger) :
    encodeStudentImages types spath files ledger = ⟨[], ledger, [], files, 0⟩ := by
  unfold encodeStudentImages
  rw [foldl_step_skip types spath (loadProcessed ledger) files _ h]
  rfl

lemma processStudent_skip (types : List String) (lpath : String) (acc : WalkAcc)
    (s : String × StudentDir)
    (h : ∀ f ∈ s.2, isValidImageType types f.1 = true →
        pathJoin (pathJoin lpath s.1) f.1 ∈ loadProcessed acc.ledger) :
    processStudent types lpath acc s = (acc, s) := by
  by_cases hemp : s.2.isEmpty = true
  · simp [processStudent, hemp]
  · obtain ⟨a1, a2, a3, a4⟩ := acc
    have hst := encodeStudentImages_skip types (pathJoin lpath s.1) s.2 a2 h
    simp only [processStudent]
    rw [if_neg hemp, hst]
    simp

lemma processStudentsList_skip (types : List String) (lpath : String) :
    ∀ (students : Lecture) (acc : WalkAcc),
      (∀ s ∈ students, ∀ f ∈ s.2, isValidImageType types f.1 = true →
          pathJoin (pathJoin lpath s.1) f.1 ∈ loadProcessed acc.ledger) →
      processStudentsList types lpath acc students = (acc, students) := by
  intro students
  induction students with
  | nil => intro acc _; rfl
  | cons s rest ih =>
    intro acc h
    have h1 := processStudent_skip types lpath acc s (h s (by simp))
    unfold processStudentsList
    rw [h1]
    dsimp only
    rw [ih acc (fun s2 hs2 => h s2 (by simp [hs2]))]

lemma processLecturesList_skip (types : List String) (parentDir : String) :
    ∀ (tree : DirTree) (acc : WalkAcc),
      (∀ l ∈ tree, ∀ s ∈ l.2, ∀ f ∈ s.2, isValidImageType types f.1 = true →
          pathJoin (pathJoin (pathJoin parentDir l.1) s.1) f.1 ∈ loadProcessed acc.ledger) →
      processLecturesList types parentDir acc tree = (acc, tree) := by
  intro tree
  induction tree with
  | nil => intro acc _; rfl
  | cons l rest ih =>
    intro acc h
    obtain ⟨lname, students⟩ := l
    unfold processLecturesList
    dsimp only
    by_cases hemp : students.isEmpty = true
    · rw [if_pos hemp]
      dsimp only
      rw [ih acc (fun l2 hl2 => h l2 (by simp [hl2]))]
    · rw [if_neg hemp,
        processStudentsList_skip types _ students acc (h (lname, students) (by simp))]
      dsimp only
      rw [ih acc (fun l2 hl2 => h l2 (by simp [hl2]))]

lemma mem_studentFilesList (spath : String) (files : StudentDir)
    (x : String × String × ImageFile) :
    x ∈ studentFilesList spath files ↔
      ∃ f ∈ files, x = (pathJoin spath f.1, f.1, f.2) := by
  simp [studentFilesList, eq_comm]

lemma mem_lectureFilesList (lpath : String) (students : Lecture)
    (x : String × String × ImageFile) :
    x ∈ lectureFilesList lpath students ↔
      ∃ s ∈ students, x ∈ studentFilesList (pathJoin lpath s.1) s.2 := by
  induction students with
  | nil => simp [lectureFilesList]
  | cons s rest ih => simp [lectureFilesList, List.foldr_cons, ih] at *; simp [lectureFilesList, ih]

lemma mem_treeFilesList (parentDir : String) (tree : DirTree)
    (x : String × String × ImageFile) :
    x ∈ treeFilesList parentDir tree ↔
      ∃ l ∈ tree, x ∈ lectureFilesList (pathJoin parentDir l.1) l.2 := by
  induction tree with
  | nil => simp [treeFilesList]
  | cons l rest ih => simp [treeFilesList, List.foldr_cons, ih] at *; simp [treeFilesList, ih]

lemma goodDisk_nested (types : List String) (parentDir : String) (d : Disk) :
    GoodDisk types parentDir d ↔
      ∀ l ∈ d.tree, ∀ s ∈ l.2, ∀ f ∈ s.2, isValidImageType types f.1 = true →
        pathJoin (pathJoin (pathJoin parentDir l.1) s.1) f.1 ∈ loadProcessed d.ledger := by
  unfold GoodDisk
  constructor
  · intro h l hl s hs f hf hv
    exact h _ ((mem_treeFilesList parentDir d.tree _).2
      ⟨l, hl, (mem_lectureFilesList _ _ _).2
        ⟨s, hs, (mem_studentFilesList _ _ _).2 ⟨f, hf, rfl⟩⟩⟩) hv
  · intro h x hx hv
    rcases (mem_treeFilesList parentDir d.tree x).1 hx with ⟨l, hl, hx2⟩
    rcases (mem_lectureFilesList _ _ _).1 hx2 with ⟨s, hs, hx3⟩
    rcases (mem_studentFilesList _ _ _).1 hx3 with ⟨f, hf, rfl⟩
    exact h l hl s hs f hf hv

lemma runPipeline_good (types : List String) (parentDir : String) (d : Disk)
    (h : GoodDisk types parentDir d) :
    runPipeline types parentDir d = ({ d with store := some [] }, 0) := by
  obtain ⟨tree, ledger, store, cropped⟩ := d
  rw [goodDisk_nested] at h
  unfold runPipeline processAndEncodeImages
  dsimp only
  by_cases ht : tree.isEmpty = true
  · rw [if_pos ht]
    dsimp only
    have : tree = [] := by
      cases tree
      · rfl
      · simp at ht
    subst this
    simp
  · rw [if_neg ht, processLecturesList_skip types parentDir tree _ h]
    simp

lemma processStudent_name (types : List String) (lpath : String) (acc : WalkAcc)
    (s : String × StudentDir) :
    (processStudent types lpath acc s).2.1 = s.1 := by
  unfold processStudent
  by_cases hemp : s.2.isEmpty = true
  · rw [if_pos hemp]
  · rw [if_neg hemp]

lemma processStudent_good (types : List String) (lpath : String) (acc : WalkAcc)
    (s : String × StudentDir)
    (hok : ∀ f ∈ s.2, isValidImageType types f.1 = true →
        pathJoin (pathJoin lpath s.1) f.1 ∈ loadProcessed acc.ledger ∨
          (encodeImage f.2).isSome = true) :
    (∀ f ∈ (processStudent types lpath acc s).2.2, isValidImageType types f.1 = true →
        pathJoin (pathJoin lpath s.1) f.1 ∈
          loadProcessed (processStudent types lpath acc s).1.ledger) ∧
    (∀ a ∈ loadProcessed acc.ledger,
        a ∈ loadProcessed (processStudent types lpath acc s).1.ledger) := by
  unfold processStudent
  by_cases hemp : s.2.isEmpty = true
  · rw [if_pos hemp]
    have : s.2 = [] := by
      rcases s with ⟨n, _ | _⟩
      · rfl
      · simp at hemp
    refine ⟨?_, fun a ha => ha⟩
    rw [this]
    intro f hf
    simp at hf
  · rw [if_neg hemp]
    dsimp only
    unfold encodeStudentImages
    constructor
    · exact foldl_step_good types (pathJoin lpath s.1) (loadProcessed acc.ledger) s.2
        ⟨[], acc.ledger, [], [], 0⟩ hok (fun a ha => ha) (by intro f hf; simp at hf)
    · exact fun a ha =>
        foldl_step_ledger_mono types (pathJoin lpath s.1) (loadProcessed acc.ledger) s.2
          ⟨[], acc.ledger, [], [], 0⟩ a ha

lemma processStudentsList_good (types : List String) (lpath : String) :
    ∀ (students : Lecture) (acc : WalkAcc),
      (∀ s ∈ students, ∀ f ∈ s.2, isValidImageType types f.1 = true →
          pathJoin (pathJoin lpath s.1) f.1 ∈ loadProcessed acc.ledger ∨
            (encodeImage f.2).isSome = true) →
      (∀ s ∈ (processStudentsList types lpath acc students).2, ∀ f ∈ s.2,
          isValidImageType types f.1 = true →
          pathJoin (pathJoin lpath s.1) f.1 ∈
            loadProcessed (processStudentsList types lpath acc students).1.ledger) ∧
      (∀ a ∈ loadProcessed acc.ledger,
          a ∈ loadProcessed (processStudentsList types lpath acc students).1.ledger) := by
  intro students
  induction students with
  | nil =>
    intro acc _
    refine ⟨?_, fun a ha => ha⟩
    intro s hs
    simp [processStudentsList] at hs
  | cons s rest ih =>
    intro acc hok
    have hps := processStudent_good types lpath acc s (hok s (by simp))
    have hname := processStudent_name types lpath acc s
    have hok2 : ∀ s2 ∈ rest, ∀ f ∈ s2.2, isValidImageType types f.1 = true →
        pathJoin (pathJoin lpath s2.1) f.1 ∈
          loadProcessed (processStudent types lpath acc s).1.ledger ∨
          (encodeImage f.2).isSome = true := by
      intro s2 hs2 f hf hv
      rcases hok s2 (by simp [hs2]) f hf hv with h | h
      · exact Or.inl (hps.2 _ h)
      · exact Or.inr h
    have ih2 := ih (processStudent types lpath acc s).1 hok2
    unfold processStudentsList
    dsimp only
    constructor
    · intro s2 hs2 f hf hv
      rcases List.mem_cons.1 hs2 with rfl | hs2
      · rw [hname]
        exact ih2.2 _ (hps.1 f hf hv)
      · exact ih2.1 s2 hs2 f hf hv
    · exact fun a ha => ih2.2 a (hps.2 a ha)

lemma processLecturesList_good (types : List String) (parentDir : String) :
    ∀ (tree : DirTree) (acc : WalkAcc),
      (∀ l ∈ tree, ∀ s ∈ l.2, ∀ f ∈ s.2, isValidImageType types f.1 = true →
          pathJoin (pathJoin (pathJoin parentDir l.1) s.1) f.1 ∈ loadProcessed acc.ledger ∨
            (encodeImage f.2).isSome = true) →
      (∀ l ∈ (processLecturesList types parentDir acc tree).2, ∀ s ∈ l.2, ∀ f ∈ s.2,
          isValidImageType types f.1 = true →
          pathJoin (pathJoin (pathJoin parentDir l.1) s.1) f.1 ∈
            loadProcessed (processLecturesList types parentDir acc tree).1.ledger) ∧
      (∀ a ∈ loadProcessed acc.ledger,
          a ∈ loadProcessed (processLecturesList types parentDir acc tree).1.ledger) := by
  intro tree
  induction tree with
  | nil =>
    intro acc _
    refine ⟨?_, fun a ha => ha⟩
    intro l hl
    simp [processLecturesList] at hl
  | cons l rest ih =>
    intro acc hok
    obtain ⟨lname, students⟩ := l
    unfold processLecturesList
    dsimp only
    by_cases hemp : students.isEmpty = true
    · rw [if_pos hemp]
      have hnil : students = [] := by
        cases students
        · rfl
        · simp at hemp
      subst hnil
      have ih2 := ih acc (fun l2 hl2 => hok l2 (by simp [hl2]))
      refine ⟨?_, ih2.2⟩
      intro l2 hl2 s hs f hf hv
      rcases List.mem_cons.1 hl2 with rfl | hl2
      · simp at hs
      · exact ih2.1 l2 hl2 s hs f hf hv
    · rw [if_neg hemp]
      have hsl := processStudentsList_good types (pathJoin parentDir lname) students acc
        (hok (lname, students) (by simp))
      have hok2 : ∀ l2 ∈ rest, ∀ s ∈ l2.2, ∀ f ∈ s.2, isValidImageType types f.1 = true →
          pathJoin (pathJoin (pathJoin parentDir l2.1) s.1) f.1 ∈
            loadProcessed (processStudentsList types (pathJoin parentDir lname) acc students).1.ledger ∨
            (encodeImage f.2).isSome = true := by
        intro l2 hl2 s hs f hf hv
        rcases hok l2 (by simp [hl2]) s hs f hf hv with h | h
        · exact Or.inl (hsl.2 _ h)
        · exact Or.inr h
      have ih2 := ih (processStudentsList types (pathJoin parentDir lname) acc students).1 hok2
      constructor
      · intro l2 hl2 s hs f hf hv
        rcases List.mem_cons.1 hl2 with rfl | hl2
        · exact ih2.2 _ (hsl.1 s hs f hf hv)
        · exact ih2.1 l2 hl2 s hs f hf hv
      · exact fun a ha => ih2.2 a (hsl.2 a ha)

lemma allEncodable_nested (types : List String) (parentDir : String) (d : Disk) :
    AllEncodable types parentDir d ↔
      ∀ l ∈ d.tree, ∀ s ∈ l.2, ∀ f ∈ s.2, isValidImageType types f.1 = true →
        pathJoin (pathJoin (pathJoin parentDir l.1) s.1) f.1 ∈ loadProcessed d.ledger ∨
          (encodeImage f.2).isSome = true := by
  unfold AllEncodable
  constructor
  · intro h l hl s hs f hf hv
    exact h _ ((mem_treeFilesList parentDir d.tree _).2
      ⟨l, hl, (mem_lectureFilesList _ _ _).2
        ⟨s, hs, (mem_studentFilesList _ _ _).2 ⟨f, hf, rfl⟩⟩⟩) hv
  · intro h x hx hv
    rcases (mem_treeFilesList parentDir d.tree x).1 hx with ⟨l, hl, hx2⟩
    rcases (mem_lectureFilesList _ _ _).1 hx2 with ⟨s, hs, hx3⟩
    rcases (mem_studentFilesList _ _ _).1 hx3 with ⟨f, hf, rfl⟩
    exact h l hl s hs f hf hv

lemma runPipeline_establishes_good (types : List String) (parentDir : String) (d : Disk)
    (h : AllEncodable types parentDir d) :
    GoodDisk types parentDir (runPipeline types parentDir d).1 := by
  obtain ⟨tree, ledger, store, cropped⟩ := d
  rw [allEncodable_nested] at h
  rw [goodDisk_nested]
  unfold runPipeline processAndEncodeImages
  dsimp only at h ⊢
  by_cases ht : tree.isEmpty = true
  · rw [if_pos ht]
    have hnil : tree = [] := by
      cases tree
      · rfl
      · simp at ht
    subst hnil
    intro l hl
    simp at hl
  · rw [if_neg ht]
    have hg := processLecturesList_good types parentDir tree ⟨[], ledger, [], 0⟩ h
    exact hg.1

/-- C1: the claim fails on the code. For the store mapping the single
key "a" to two embeddings, `_extract_face_encodings_and_names` produces
a flattened embeddings array of length 2 but a labels array of length 1
(one label per key, not per embedding), so the arrays are neither of
equal length nor parallel; a query whose minimum distance is at the
second embedding then makes `_get_face_name` raise `IndexError` on
`known_face_names[best_match_index]`. -/
theorem extractNamesNotParallel :
    (extractFaceEncodingsAndNames [("a", [[0], [1]])]).1.length = 2 ∧
    (extractFaceEncodingsAndNames [("a", [[0], [1]])]).2.length = 1 ∧
    getFaceName (fun _ e => if e = [(1 : ℚ)] then 0 else 1)
      (extractFaceEncodingsAndNames [("a", [[0], [1]])]).2
      (extractFaceEncodingsAndNames [("a", [[0], [1]])]).1 [5] = .indexError := by
  refine ⟨rfl, rfl, ?_⟩
  norm_num [getFaceName, argminPair, argminAux, extractFaceEncodingsAndNames]

/-- C2: the resolver decision table is broken in the (invalid store,
valid directory) row: `get_encoding_data` calls
`self.encoder.process_images()`, a method `ImageEncoder` does not
define, so the raised `AttributeError` is caught by the surrounding
handler and `None` is returned instead of a fresh store path.  The
other three rows match the table. -/
theorem getEncodingDataTableRow3ReturnsNone (storePath freshStorePath : String) :
    getEncodingData true true storePath freshStorePath = some storePath ∧
    getEncodingData true false storePath freshStorePath = some storePath ∧
    getEncodingData false false storePath freshStorePath = none ∧
    getEncodingData false true storePath freshStorePath = none := by
  have h : ("process_images" ∈ imageEncoderMethods) = False := by
    simp [imageEncoderMethods]
  refine ⟨rfl, rfl, rfl, ?_⟩
  simp [getEncodingData, encoderProcessImagesCall, h]

/-- C3: for the matcher built from the store mapping "bob_1" to the
single embedding E, a query at distance 0 from E yields the confident
match ("bob", 1): confidence is 1 minus the minimum distance and the
synthetic-uniqueness suffix is stripped from the displayed label; a
query at distance 9/10 (confidence 1/10 below the 0.60 threshold)
yields the no-decision outcome, which is distinct from the
("Unknown", 0.0) result. -/
theorem matcherBobThreshold (dist : Enc → Enc → ℚ) (E q1 q2 : Enc)
    (h1 : dist q1 E = 0) (h2 : dist q2 E = 9 / 10) :
    getFaceName dist (extractFaceEncodingsAndNames [("bob_1", [E])]).2
        (extractFaceEncodingsAndNames [("bob_1", [E])]).1 q1 = .matched "bob" 1 ∧
    getFaceName dist (extractFaceEncodingsAndNames [("bob_1", [E])]).2
        (extractFaceEncodingsAndNames [("bob_1", [E])]).1 q2 = .noDecision ∧
    MatchResult.noDecision ≠ MatchResult.unknown := by
  have he : extractFaceEncodingsAndNames [("bob_1", [E])] = ([E], ["bob_1"]) := rfl
  rw [he]
  refine ⟨?_, ?_, by simp⟩
  · rw [getFaceName_singleton, h1]
    norm_num
    rfl
  · rw [getFaceName_singleton, h2]
    norm_num

/-- Witness for C3 at a concrete distance function and embeddings. -/
theorem matcherBobThresholdWitness :
    ((fun (a b : Enc) => if a = b then (0 : ℚ) else 9 / 10) [0] [0] = 0) ∧
    ((fun (a b : Enc) => if a = b then (0 : ℚ) else 9 / 10) [1] [0] = 9 / 10) ∧
    (getFaceName (fun (a b : Enc) => if a = b then (0 : ℚ) else 9 / 10)
        (extractFaceEncodingsAndNames [("bob_1", [[0]])]).2
        (extractFaceEncodingsAndNames [("bob_1", [[0]])]).1 [0] = .matched "bob" 1 ∧
      getFaceName (fun (a b : Enc) => if a = b then (0 : ℚ) else 9 / 10)
        (extractFaceEncodingsAndNames [("bob_1", [[0]])]).2
        (extractFaceEncodingsAndNames [("bob_1", [[0]])]).1 [1] = .noDecision ∧
      MatchResult.noDecision ≠ MatchResult.unknown) :=
  ⟨by norm_num, by norm_num,
    matcherBobThreshold (fun a b => if a = b then 0 else 9 / 10) [0] [0] [1]
      (by norm_num) (by norm_num)⟩

/-- C4: once `_save_processed_image(p)` has run, `p` is found by every
subsequent membership check, through any further sequence of records,
each check rereading the persisted file; and loading a nonexistent
ledger file yields the empty set rather than a failure. -/
theorem ledgerRecordPersists (p : String) (file : Option (List String))
    (ops : List String) :
    p ∈ loadProcessed (ops.foldl (fun g q => saveProcessed q g) (saveProcessed p file)) ∧
      loadProcessed none = [] :=
  ⟨mem_loadProcessed_foldl p ops _ (mem_loadProcessed_saveProcessed_self p file), rfl⟩

/-- C5: under the strict face-count policy, an image of allowed type,
not yet ledgered, that decodes but yields a face count other than one is
rejected: the only state change is the attempt counter, the image stays
on disk (in `remaining`), and no encoding, ledger entry, or cropped
archive entry is produced; moreover the walk continues, producing the
same encodings, ledger, and archive as if the bad image were absent. -/
theorem strictPolicyRejectsAndContinues (types : List String) (spath : String)
    (processed : List String) (st : StudState) (name : String) (img : ImageFile)
    (l1 l2 : List (String × ImageFile))
    (hv : isValidImageType types name = true)
    (hp : pathJoin spath name ∉ processed)
    (hd : img.decodeOk = true)
    (hf : img.faces.length ≠ 1) :
    encodeStudentStep types spath processed st (name, img) =
      { st with remaining := st.remaining ++ [(name, img)],
                attempts := st.attempts + 1 } ∧
    ((l1 ++ (name, img) :: l2).foldl (encodeStudentStep types spath processed) st).encodings =
      ((l1 ++ l2).foldl (encodeStudentStep types spath processed) st).encodings ∧
    ((l1 ++ (name, img) :: l2).foldl (encodeStudentStep types spath processed) st).ledger =
      ((l1 ++ l2).foldl (encodeStudentStep types spath processed) st).ledger ∧
    ((l1 ++ (name, img) :: l2).foldl (encodeStudentStep types spath processed) st).cropped =
      ((l1 ++ l2).foldl (encodeStudentStep types spath processed) st).cropped := by
  have henc := encodeImage_eq_none img hd hf
  have hstep := encodeStudentStep_rejected types spath processed
    (l1.foldl (encodeStudentStep types spath processed) st) name img hv hp henc
  refine ⟨encodeStudentStep_rejected types spath processed st name img hv hp henc, ?_⟩
  rw [List.foldl_append, List.foldl_append, List.foldl_cons, hstep]
  exact foldl_step_core_congr types spath processed l2 _ _ (by simp) (by simp) (by simp)

/-- Witness for C5 at a concrete zero-face image in a concrete folder. -/
theorem strictPolicyRejectsAndContinuesWitness :
    isValidImageType defaultImageTypes "a.jpg" = true ∧
    pathJoin "image_db/l/s" "a.jpg" ∉ ([] : List String) ∧
    (⟨true, []⟩ : ImageFile).decodeOk = true ∧
    (⟨true, []⟩ : ImageFile).faces.length ≠ 1 ∧
    (encodeStudentStep defaultImageTypes "image_db/l/s" [] ⟨[], none, [], [], 0⟩
        ("a.jpg", ⟨true, []⟩) =
      { (⟨[], none, [], [], 0⟩ : StudState) with
          remaining := (⟨[], none, [], [], 0⟩ : StudState).remaining ++ [("a.jpg", ⟨true, []⟩)],
          attempts := (⟨[], none, [], [], 0⟩ : StudState).attempts + 1 } ∧
    (([] ++ ("a.jpg", (⟨true, []⟩ : ImageFile)) :: [("b.jpg", ⟨true, [[0]]⟩)]).foldl
        (encodeStudentStep defaultImageTypes "image_db/l/s" []) ⟨[], none, [], [], 0⟩).encodings =
      (([] ++ [("b.jpg", (⟨true, [[0]]⟩ : ImageFile))]).foldl
        (encodeStudentStep defaultImageTypes "image_db/l/s" []) ⟨[], none, [], [], 0⟩).encodings ∧
    (([] ++ ("a.jpg", (⟨true, []⟩ : ImageFile)) :: [("b.jpg", ⟨true, [[0]]⟩)]).foldl
        (encodeStudentStep defaultImageTypes "image_db/l/s" []) ⟨[], none, [], [], 0⟩).ledger =
      (([] ++ [("b.jpg", (⟨true, [[0]]⟩ : ImageFile))]).foldl
        (encodeStudentStep defaultImageTypes "image_db/l/s" []) ⟨[], none, [], [], 0⟩).ledger ∧
    (([] ++ ("a.jpg", (⟨true, []⟩ : ImageFile)) :: [("b.jpg", ⟨true, [[0]]⟩)]).foldl
        (encodeStudentStep defaultImageTypes "image_db/l/s" []) ⟨[], none, [], [], 0⟩).cropped =
      (([] ++ [("b.jpg", (⟨true, [[0]]⟩ : ImageFile))]).foldl
        (encodeStudentStep defaultImageTypes "image_db/l/s" []) ⟨[], none, [], [], 0⟩).cropped) :=
  ⟨by decide, by decide, rfl, by decide,
    strictPolicyRejectsAndContinues defaultImageTypes "image_db/l/s" []
      ⟨[], none, [], [], 0⟩ "a.jpg" ⟨true, []⟩ [] [("b.jpg", ⟨true, [[0]]⟩)]
      (by decide) (by decide) rfl (by decide)⟩

/-- C6: counterexample to the claim as stated.  A directory whose single
image yields zero detected faces is neither ledgered nor removed by the
first run, so the second run over the unchanged tree invokes
`_encode_image` again: it processes one image, not zero. -/
theorem pipelineSecondRunCounterexample :
    (runPipeline defaultImageTypes "image_db"
      (runPipeline defaultImageTypes "image_db"
        ⟨[("lec_num_1", [("student_id_1", [("img1.jpg", ⟨true, []⟩)])])],
          none, none, []⟩).1).2 ≠ 0 := by decide

/-- C6 (amended): when every allowed-type image of the initial tree is
either already ledgered or encodes successfully (decodes with exactly
one detected face), the first run ledgers or removes every image it
touches, and the second run over the resulting disk processes zero
images. -/
theorem pipelineSecondRunZero (types : List String) (parentDir : String) (d : Disk)
    (h : AllEncodable types parentDir d) :
    (runPipeline types parentDir (runPipeline types parentDir d).1).2 = 0 := by
  rw [runPipeline_good types parentDir _ (runPipeline_establishes_good types parentDir d h)]

/-- Witness for C6 (amended) on a one-image directory whose image
encodes successfully. -/
theorem pipelineSecondRunZeroWitness :
    AllEncodable defaultImageTypes "image_db"
      ⟨[("lec_num_1", [("student_id_1", [("img1.jpg", ⟨true, [[0]]⟩)])])],
        none, none, []⟩ ∧
    (runPipeline defaultImageTypes "image_db"
      (runPipeline defaultImageTypes "image_db"
        ⟨[("lec_num_1", [("student_id_1", [("img1.jpg", ⟨true, [[0]]⟩)])])],
          none, none, []⟩).1).2 = 0 :=
  ⟨by unfold AllEncodable; decide,
    pipelineSecondRunZero defaultImageTypes "image_db"
      ⟨[("lec_num_1", [("student_id_1", [("img1.jpg", ⟨true, [[0]]⟩)])])],
        none, none, []⟩
      (by unfold AllEncodable; decide)⟩

/-- C7: saving a valid store mapping (distinct string keys, non-empty
embedding lists) and loading the resulting file returns an equal
mapping. -/
theorem storeSaveLoadRoundTrip (s : List (String × List Enc))
    (h1 : (s.map Prod.fst).Nodup) (_h2 : validStoreEntries s = true) :
    loadDataFromFile (saveEncodings s) = s := by
  unfold loadDataFromFile saveEncodings pickleDictOfEntries
  simpa using foldl_dictInsert s [] h1 (by simp)

/-- Witness for C7 on a concrete two-identity store. -/
theorem storeSaveLoadRoundTripWitness :
    (([("alice", [[0]]), ("bob", [[1]])].map Prod.fst).Nodup) ∧
    validStoreEntries [("alice", [[0]]), ("bob", [[1]])] = true ∧
    loadDataFromFile (saveEncodings [("alice", [[0]]), ("bob", [[1]])]) =
      [("alice", [[0]]), ("bob", [[1]])] :=
  ⟨by decide, by decide,
    storeSaveLoadRoundTrip [("alice", [[0]]), ("bob", [[1]])] (by decide) (by decide)⟩

/-- C8: a matcher whose list of known embeddings is empty returns
("Unknown", 0.0) for every query, whatever the labels and the distance
primitive. -/
theorem matcherEmptyStoreUnknown (dist : Enc → Enc → ℚ) (names : List String) (q : Enc) :
    getFaceName dist names [] q = .unknown := by
  simp [getFaceName]

/-- C9: for every combination of constructor arguments, instantiating
`EncodingProvider` raises `TypeError`, because its `__init__` constructs
`ImageEncoder` with the keyword arguments `known_faces_dir` and
`mirror_video`, neither of which is a parameter of
`ImageEncoder.__init__`. -/
theorem encodingProviderInitRaisesTypeError (f k : String)
    (v : Option (List String)) (m : Bool) :
    encodingProviderInit f k v m = Except.error "TypeError" := by
  have h : ("known_faces_dir" ∈ imageEncoderInitKeywords) = False := by
    simp [imageEncoderInitKeywords]
  simp [encodingProviderInit, encodingProviderEncoderKwargs, h]

/-- C10: a pipeline run saves exactly the in-memory mapping accumulated
during that run, so on a disk where every allowed-type image still
present is already ledgered (the state a fully successful run leaves:
encoded images removed, skipped-but-ledgered ones still present), the
run accumulates nothing and overwrites the store file with the empty
mapping, erasing whatever store was persisted before. -/
theorem rerunOverwritesStoreEmpty (types : List String) (parentDir : String) (d : Disk)
    (h : GoodDisk types parentDir d) :
    (runPipeline types parentDir d).1.store = some [] := by
  rw [runPipeline_good types parentDir d h]

/-- Witness for C10 on a disk holding a non-empty persisted store and a
fully ledgered tree. -/
theorem rerunOverwritesStoreEmptyWitness :
    GoodDisk defaultImageTypes "image_db"
      ⟨[("lec_num_1", [("student_id_1", [("img1.jpg", ⟨true, [[0]]⟩)])])],
        some ["image_db/lec_num_1/student_id_1/img1.jpg"],
        some [("student_id_1", [[0]])], []⟩ ∧
    (runPipeline defaultImageTypes "image_db"
      ⟨[("lec_num_1", [("student_id_1", [("img1.jpg", ⟨true, [[0]]⟩)])])],
        some ["image_db/lec_num_1/student_id_1/img1.jpg"],
        some [("student_id_1", [[0]])], []⟩).1.store = some [] :=
  ⟨by unfold GoodDisk; decide,
    rerunOverwritesStoreEmpty defaultImageTypes "image_db"
      ⟨[("lec_num_1", [("student_id_1", [("img1.jpg", ⟨true, [[0]]⟩)])])],
        some ["image_db/lec_num_1/student_id_1/img1.jpg"],
        some [("student_id_1", [[0]])], []⟩
      (by unfold GoodDisk; decide)⟩
